import Mathlib

/-!
Shallow embedding of src/audio.py (classes Audio and AudioQueue) of the
discordBot repository, together with theorems checking the specification's
claims about it.

Modelling conventions:
* Python object identity of an Audio instance is modelled by the ghost field
  aid; Audio.refresh and Audio.set_end_time mutate the object in place in the
  source, so in the model they preserve aid.
* The external collaborators are an explicit environment Env: probe models
  requests.head (none = connection failure, some c = HTTP status code c),
  getAudio models youtube_client.get_audio, and now models datetime.now().
* Discord handles (author, channels) are opaque numeric ids; track length (a
  float in the source) is an Int, used only opaquely by the model.
* Calls to post_event and to the Audio methods made by AudioQueue are recorded
  in an effect trace (List Eff), in execution order.
* Python deques are Lists whose left end is the list head: popleft = tail /
  head, appendleft = cons, append = l ++ [a], pop = getLast? / dropLast.
* A non-Audio argument (the isinstance check in AudioQueue._add_to_queue, in
  particular the None that restart_queue passes when nothing is current) is
  modelled by none : Option Audio.
-/

namespace DiscordBot

/-- Result record of the external resolver youtube_client.get_audio
(consumed by Audio.refresh, audio.py lines 40-52). -/
structure Entry where
  audio_url : String
  webpage_url : String
  title : String
  length : Int
  thumbnail : String
  deriving Repr, DecidableEq

/-- The Audio dataclass (audio.py lines 18-55).  end_time is unset (none)
until set_end_time runs; aid models Python object identity. -/
structure Audio where
  aid : Nat
  author : Nat
  voice_channel : Nat
  text_channel : Nat
  audio_url : String
  webpage_url : String
  title : String
  length : Int
  thumbnail : String
  end_time : Option Int
  deriving Repr, DecidableEq

/-- Environment of external collaborators (requests.head, youtube_client,
the wall clock). -/
structure Env where
  probe : String → Option Nat
  getAudio : String → Option Entry
  now : Int

/-- Audio.is_stale (audio.py lines 33-38): HEAD the stream URL; stale iff
the status is not 200, and every connection failure also counts as stale. -/
def Audio.is_stale (a : Audio) (env : Env) : Bool :=
  match env.probe a.audio_url with
  | some status => status != 200
  | none => true

/-- Audio.refresh (audio.py lines 40-52): re-resolve the webpage URL; on a
result replace audio_url, webpage_url, title, length and thumbnail and
return true, otherwise leave the record unchanged and return false. -/
def Audio.refresh (a : Audio) (env : Env) : Audio × Bool :=
  match env.getAudio a.webpage_url with
  | some entry =>
      ({a with audio_url := entry.audio_url, webpage_url := entry.webpage_url,
               title := entry.title, length := entry.length,
               thumbnail := entry.thumbnail}, true)
  | none => (a, false)

/-- Audio.set_end_time (audio.py lines 54-55):
end_time := now + length - offset. -/
def Audio.set_end_time (a : Audio) (env : Env) (offset : Int) : Audio :=
  {a with end_time := some (env.now + a.length - offset)}

/-- Observable effects of AudioQueue: the post_event calls and the Audio
method calls made on the way (in execution order). -/
inductive Eff where
  | checkedStale (aid : Nat) (stale : Bool)
  | refreshCalled (aid : Nat) (ok : Bool)
  | endTimeSet (aid : Nat)
  | evNewAudio (a : Audio)
  | evNoAudio
  | evQueueUpdate
  deriving Repr, DecidableEq

/-- The AudioQueue state (audio.py lines 57-69): forward queue, history
(previous_queue) and the current slot (_current_audio), plus the two size
bounds fixed at construction. -/
structure AudioQueue where
  max_queue_size : Nat
  max_previous_queue_size : Nat
  queue : List Audio
  previous_queue : List Audio
  current_audio : Option Audio
  deriving Repr, DecidableEq

/-- AudioQueue.__init__ (audio.py lines 60-69); the source defaults are
max_queue_size = 10000 and max_previous_queue_size = 100. -/
def AudioQueue.init (max_queue_size : Nat) (max_previous_queue_size : Nat) :
    AudioQueue :=
  { max_queue_size := max_queue_size
    max_previous_queue_size := max_previous_queue_size
    queue := []
    previous_queue := []
    current_audio := none }

/-- The promotion performed on a non-empty assignment to current_audio
(audio.py lines 75-83): staleness check, refresh when stale (its failure
does not stop promotion), then set_end_time. Returns the promoted audio and
the Audio-method part of the effect trace. -/
def promote (env : Env) (a : Audio) : Audio × List Eff :=
  if a.is_stale env then
    (((a.refresh env).1).set_end_time env 0,
     [Eff.checkedStale a.aid true, Eff.refreshCalled a.aid (a.refresh env).2,
      Eff.endTimeSet a.aid])
  else
    (a.set_end_time env 0,
     [Eff.checkedStale a.aid false, Eff.endTimeSet a.aid])

/-- The current_audio setter (audio.py lines 75-85): promote and publish
new_audio on a non-empty assignment, publish no_audio on an empty one. -/
def setCurrentAudio (env : Env) (s : AudioQueue) (audio : Option Audio) :
    AudioQueue × List Eff :=
  match audio with
  | some a =>
      ({s with current_audio := some (promote env a).1},
       (promote env a).2 ++ [Eff.evNewAudio (promote env a).1])
  | none => ({s with current_audio := none}, [Eff.evNoAudio])

/-- AudioQueue._add_to_previous_queue (audio.py lines 111-116): append to
the history tail, first dropping the oldest (front) entry when the history
length already exceeds max_previous_queue_size. -/
def addToPreviousQueue (s : AudioQueue) (a : Audio) : AudioQueue :=
  if s.previous_queue.length > s.max_previous_queue_size then
    {s with previous_queue := s.previous_queue.tail ++ [a]}
  else
    {s with previous_queue := s.previous_queue ++ [a]}

/-- The `if self.current_audio: self._add_to_previous_queue(...)` step at
the start of get_next_audio (audio.py lines 99-100 and 105-106). -/
def stashCurrent (s : AudioQueue) : AudioQueue :=
  match s.current_audio with
  | some c => addToPreviousQueue s c
  | none => s

/-- AudioQueue.get_next_audio (audio.py lines 96-109): move the current
track (if any) into the history, then promote the queue head, or clear the
current slot when the queue is empty.  Returns the value the source
returns (the promoted object, mutated in place there), the new state and
the effect trace. -/
def getNextAudio (env : Env) (s : AudioQueue) :
    Option Audio × AudioQueue × List Eff :=
  match s.queue with
  | nextA :: rest =>
      ((setCurrentAudio env {stashCurrent s with queue := rest} (some nextA)).1.current_audio,
       setCurrentAudio env {stashCurrent s with queue := rest} (some nextA))
  | [] =>
      (none, setCurrentAudio env (stashCurrent s) none)

/-- The `if self._current_audio: self.queue.appendleft(self._current_audio)`
step of get_previous_audio (audio.py lines 121-122). -/
def pushCurrentLeft (s : AudioQueue) : AudioQueue :=
  match s.current_audio with
  | some c => {s with queue := c :: s.queue}
  | none => s

/-- AudioQueue.get_previous_audio (audio.py lines 118-128): when the
history is non-empty, push the current track (if any) onto the head of the
forward queue (with no capacity check), pop the history tail and promote
it; when the history is empty, log and do nothing. -/
def getPreviousAudio (env : Env) (s : AudioQueue) :
    Option Audio × AudioQueue × List Eff :=
  match s.previous_queue.getLast? with
  | some prevA =>
      ((setCurrentAudio env
          {pushCurrentLeft s with previous_queue := s.previous_queue.dropLast}
          (some prevA)).1.current_audio,
       setCurrentAudio env
          {pushCurrentLeft s with previous_queue := s.previous_queue.dropLast}
          (some prevA))
  | none => (none, s, [])

/-- The deque append / appendleft chosen by add_to_start
(audio.py lines 139-142). -/
def enqueue (s : AudioQueue) (a : Audio) (add_to_start : Bool) : AudioQueue :=
  if add_to_start then {s with queue := a :: s.queue}
  else {s with queue := s.queue ++ [a]}

/-- AudioQueue._add_to_queue (audio.py lines 136-152), the body of append
and append_left: a non-Audio argument (modelled by none) is ignored; at or
above max_queue_size the call is ignored; otherwise the audio is added and,
when nothing is current, get_next_audio promotes immediately, else a
queue_update event is published. -/
def addToQueue (env : Env) (s : AudioQueue) (audio : Option Audio)
    (add_to_start : Bool) : AudioQueue × List Eff :=
  match audio with
  | some a =>
      if s.queue.length < s.max_queue_size then
        match (enqueue s a add_to_start).current_audio with
        | none => (getNextAudio env (enqueue s a add_to_start)).2
        | some _ => (enqueue s a add_to_start, [Eff.evQueueUpdate])
      else (s, [])
  | none => (s, [])

/-- AudioQueue.restart_queue (audio.py lines 130-134): append_left the
current slot's content (a no-op when it is None or the queue is full),
concatenate the history in front of the forward queue, clear the history,
then advance via get_next_audio. -/
def restartQueue (env : Env) (s : AudioQueue) : AudioQueue × List Eff :=
  let s1 := (addToQueue env s s.current_audio true).1
  let s2 := {s1 with queue := s1.previous_queue ++ s1.queue,
                     previous_queue := []}
  ((getNextAudio env s2).2.1,
   (addToQueue env s s.current_audio true).2 ++ (getNextAudio env s2).2.2)

/-- AudioQueue.remove_current_audio (audio.py lines 161-168): clear the
current slot directly (no event) and advance; returns the removed title. -/
def removeCurrentAudio (env : Env) (s : AudioQueue) :
    Option String × AudioQueue × List Eff :=
  match s.current_audio with
  | some c =>
      (some c.title, (getNextAudio env {s with current_audio := none}).2)
  | none => (none, s, [])

/-- AudioQueue.clear_next_queue (audio.py lines 170-172). -/
def clearNextQueue (s : AudioQueue) : AudioQueue × List Eff :=
  ({s with queue := []}, [Eff.evQueueUpdate])

/-- AudioQueue.clear_previous_queue (audio.py lines 174-176). -/
def clearPreviousQueue (s : AudioQueue) : AudioQueue × List Eff :=
  ({s with previous_queue := []}, [Eff.evQueueUpdate])

/-- AudioQueue.reset_queue (audio.py lines 156-159): clear both queues
(each publishing queue_update) and empty the current slot directly,
bypassing the event-publishing setter. -/
def resetQueue (s : AudioQueue) : AudioQueue × List Eff :=
  ({s with queue := [], previous_queue := [], current_audio := none},
   [Eff.evQueueUpdate, Eff.evQueueUpdate])

/-- AudioQueue.get_queue_length (audio.py lines 190-191). -/
def getQueueLength (s : AudioQueue) : Nat := s.queue.length

/-- AudioQueue.get_previous_queue_length (audio.py lines 193-194). -/
def getPreviousQueueLength (s : AudioQueue) : Nat := s.previous_queue.length

/-- The public operations of AudioQueue that mutate state.  append and
append_left carry their raw argument (none = any non-Audio value). -/
inductive Op where
  | append (a : Option Audio)
  | appendLeft (a : Option Audio)
  | getNext
  | getPrevious
  | restart
  | removeCurrent
  | reset
  deriving Repr, DecidableEq

/-- One public operation, as state transformer with effect trace. -/
def step (env : Env) (s : AudioQueue) : Op → AudioQueue × List Eff
  | Op.append a => addToQueue env s a false
  | Op.appendLeft a => addToQueue env s a true
  | Op.getNext => (getNextAudio env s).2
  | Op.getPrevious => (getPreviousAudio env s).2
  | Op.restart => restartQueue env s
  | Op.removeCurrent => (removeCurrentAudio env s).2
  | Op.reset => resetQueue s

/-- Run a list of public operations from a state. -/
def execOps (env : Env) (s : AudioQueue) : List Op → AudioQueue
  | [] => s
  | op :: rest => execOps env (step env s op).1 rest

/-- A state is reachable when some operation sequence produces it from a
freshly constructed AudioQueue. -/
def Reachable (env : Env) (s : AudioQueue) : Prop :=
  ∃ mq mp ops, execOps env (AudioQueue.init mq mp) ops = s

/-- All Audio values held by the three containers: forward queue, history,
current slot. -/
def allAudios (s : AudioQueue) : List Audio :=
  s.queue ++ s.previous_queue ++ s.current_audio.toList

/-- The object identities held by the three containers. -/
def allAids (s : AudioQueue) : List Nat :=
  (allAudios s).map Audio.aid

/-- An operation is restart-free. -/
def nonRestart : Op → Prop
  | Op.restart => False
  | _ => True

/-- The appended instance (if the operation appends one) is not already
held by any container, as Python callers construct each Audio anew. -/
def freshFor (s : AudioQueue) : Op → Prop
  | Op.append (some a) => a.aid ∉ allAids s
  | Op.appendLeft (some a) => a.aid ∉ allAids s
  | _ => True

/-- States reached from a fresh AudioQueue by restart-free operations whose
appended instances are always fresh. -/
inductive ReachedFresh (env : Env) : AudioQueue → Prop where
  | init (mq mp : Nat) : ReachedFresh env (AudioQueue.init mq mp)
  | stepOp (s : AudioQueue) (op : Op) (h : ReachedFresh env s)
      (hnr : nonRestart op) (hf : freshFor s op) :
      ReachedFresh env (step env s op).1

/-- Repeated get_next_audio, collecting the returned tracks, stopping on an
empty queue or after the given number of calls. -/
def drain (env : Env) : AudioQueue → Nat → List Audio
  | _, 0 => []
  | s, n + 1 =>
      match getNextAudio env s with
      | (some a, s2, _) => a :: drain env s2 n
      | (none, _, _) => []

/-- Run a sequence of append (false) / append_left (true) calls. -/
def execAppends (env : Env) (s : AudioQueue) :
    List (Bool × Audio) → AudioQueue
  | [] => s
  | (left, a) :: rest => execAppends env (addToQueue env s (some a) left).1 rest

/-- A concrete Audio with identity n and trivial content. -/
def mkAudio (n : Nat) : Audio :=
  { aid := n, author := 0, voice_channel := 0, text_channel := 0,
    audio_url := "", webpage_url := "", title := "", length := 0,
    thumbnail := "", end_time := none }

/-- An environment where every stream URL is live (status 200) and the
resolver always fails; the clock is 0. -/
def env0 : Env :=
  { probe := fun _ => some 200, getAudio := fun _ => none, now := 0 }

/-- An environment where every probe fails to connect (everything stale)
and the resolver always fails; the clock is 0. -/
def envStale : Env :=
  { probe := fun _ => none, getAudio := fun _ => none, now := 0 }

/-- State after append(a0); restart_queue on a fresh queue (bounds 10/10):
the current track ends up aliased in the history. -/
def sC1 : AudioQueue :=
  execOps env0 (AudioQueue.init 10 10)
    [Op.append (some (mkAudio 0)), Op.restart]

/-- State after two appends and one get_next_audio on a queue whose
max_previous_queue_size is 0: the history holds one element. -/
def sC2 : AudioQueue :=
  execOps env0 (AudioQueue.init 10 0)
    [Op.append (some (mkAudio 0)), Op.append (some (mkAudio 1)), Op.getNext]

/-- State reached on a queue with max_queue_size = 1 where
get_previous_audio has pushed the forward queue above its bound. -/
def sC3 : AudioQueue :=
  execOps env0 (AudioQueue.init 1 10)
    [Op.append (some (mkAudio 0)), Op.append (some (mkAudio 1)), Op.getNext,
     Op.append (some (mkAudio 2)), Op.getPrevious]

/-- Reachable state with empty forward queue, empty current slot and a
non-empty history. -/
def sC5 : AudioQueue :=
  execOps env0 (AudioQueue.init 10 10)
    [Op.append (some (mkAudio 0)), Op.getNext]

/-- Reachable state with full forward queue (bound 1), occupied current
slot and non-empty history. -/
def sC6 : AudioQueue :=
  execOps env0 (AudioQueue.init 1 10)
    [Op.append (some (mkAudio 0)), Op.append (some (mkAudio 1)), Op.getNext,
     Op.append (some (mkAudio 2))]

/-- State after a single append on a fresh queue (bounds 10/10). -/
def sC7 : AudioQueue :=
  (addToQueue env0 (AudioQueue.init 10 10) (some (mkAudio 0)) false).1

/-- A concrete resolver result used in witnesses. -/
def e0 : Entry :=
  { audio_url := "u", webpage_url := "w", title := "t", length := 7,
    thumbnail := "th" }

/-- An environment whose resolver always returns e0; probes succeed. -/
def envResolve : Env :=
  { probe := fun _ => some 200, getAudio := fun _ => some e0, now := 0 }

/-! ### Basic lemmas about the Audio methods -/

theorem refresh_aid (a : Audio) (env : Env) : ((a.refresh env).1).aid = a.aid := by
  unfold Audio.refresh
  cases env.getAudio a.webpage_url <;> rfl

theorem set_end_time_aid (a : Audio) (env : Env) (off : Int) :
    (a.set_end_time env off).aid = a.aid := rfl

theorem promote_aid (env : Env) (a : Audio) : ((promote env a).1).aid = a.aid := by
  unfold promote
  split
  · simp [refresh_aid, set_end_time_aid]
  · rfl

/-! ### Characterization lemmas for the current_audio setter -/

theorem setCur_some (env : Env) (s : AudioQueue) (a : Audio) :
    setCurrentAudio env s (some a) =
      ({s with current_audio := some (promote env a).1},
       (promote env a).2 ++ [Eff.evNewAudio (promote env a).1]) := rfl

theorem setCur_none (env : Env) (s : AudioQueue) :
    setCurrentAudio env s none =
      ({s with current_audio := none}, [Eff.evNoAudio]) := rfl

/-! ### Characterization lemmas for _add_to_previous_queue and its callers -/

theorem addPrev_queue (s : AudioQueue) (a : Audio) :
    (addToPreviousQueue s a).queue = s.queue := by
  unfold addToPreviousQueue; split <;> rfl

theorem addPrev_current (s : AudioQueue) (a : Audio) :
    (addToPreviousQueue s a).current_audio = s.current_audio := by
  unfold addToPreviousQueue; split <;> rfl

theorem addPrev_maxq (s : AudioQueue) (a : Audio) :
    (addToPreviousQueue s a).max_queue_size = s.max_queue_size := by
  unfold addToPreviousQueue; split <;> rfl

theorem addPrev_maxp (s : AudioQueue) (a : Audio) :
    (addToPreviousQueue s a).max_previous_queue_size = s.max_previous_queue_size := by
  unfold addToPreviousQueue; split <;> rfl

theorem addPrev_prev_concat (s : AudioQueue) (a : Audio) :
    ∃ p, (addToPreviousQueue s a).previous_queue = p ++ [a] := by
  unfold addToPreviousQueue; split
  · exact ⟨s.previous_queue.tail, rfl⟩
  · exact ⟨s.previous_queue, rfl⟩

theorem addPrev_len (s : AudioQueue) (a : Audio)
    (h : s.previous_queue.length ≤ s.max_previous_queue_size + 1) :
    (addToPreviousQueue s a).previous_queue.length ≤
      s.max_previous_queue_size + 1 := by
  unfold addToPreviousQueue
  split
  · next hgt =>
      simp only [List.length_append, List.length_tail, List.length_cons,
        List.length_nil]
      omega
  · next hle =>
      simp only [List.length_append, List.length_cons, List.length_nil]
      omega

/-- When an eviction happens, the dropped element is the history head,
that is the oldest entry. -/
theorem addPrev_evict (s : AudioQueue) (a : Audio)
    (h : s.previous_queue.length > s.max_previous_queue_size) :
    (addToPreviousQueue s a).previous_queue = s.previous_queue.tail ++ [a] := by
  unfold addToPreviousQueue
  rw [if_pos h]

theorem stash_none (s : AudioQueue) (h : s.current_audio = none) :
    stashCurrent s = s := by
  unfold stashCurrent; rw [h]

theorem stash_some (s : AudioQueue) (c : Audio) (h : s.current_audio = some c) :
    stashCurrent s = addToPreviousQueue s c := by
  unfold stashCurrent; rw [h]

theorem stash_queue (s : AudioQueue) : (stashCurrent s).queue = s.queue := by
  unfold stashCurrent
  cases s.current_audio
  · rfl
  · exact addPrev_queue _ _

theorem stash_maxq (s : AudioQueue) :
    (stashCurrent s).max_queue_size = s.max_queue_size := by
  unfold stashCurrent
  cases s.current_audio
  · rfl
  · exact addPrev_maxq _ _

theorem stash_maxp (s : AudioQueue) :
    (stashCurrent s).max_previous_queue_size = s.max_previous_queue_size := by
  unfold stashCurrent
  cases s.current_audio
  · rfl
  · exact addPrev_maxp _ _

theorem stash_len (s : AudioQueue)
    (h : s.previous_queue.length ≤ s.max_previous_queue_size + 1) :
    (stashCurrent s).previous_queue.length ≤
      s.max_previous_queue_size + 1 := by
  unfold stashCurrent
  cases s.current_audio
  · exact h
  · exact addPrev_len _ _ h

/-! ### Characterization lemmas for get_next_audio -/

theorem getNext_nil (env : Env) (s : AudioQueue) (h : s.queue = []) :
    getNextAudio env s =
      (none, {stashCurrent s with current_audio := none}, [Eff.evNoAudio]) := by
  unfold getNextAudio; rw [h]; rfl

theorem getNext_cons (env : Env) (s : AudioQueue) (a : Audio) (rest : List Audio)
    (h : s.queue = a :: rest) :
    getNextAudio env s =
      (some (promote env a).1,
       {stashCurrent s with queue := rest,
                            current_audio := some (promote env a).1},
       (promote env a).2 ++ [Eff.evNewAudio (promote env a).1]) := by
  unfold getNextAudio; rw [h]; rfl

theorem getNext_queueLen_le (env : Env) (s : AudioQueue) :
    ((getNextAudio env s).2.1).queue.length ≤ s.queue.length := by
  cases hq : s.queue with
  | nil => rw [getNext_nil env s hq]; simp [stash_queue, hq]
  | cons a rest => rw [getNext_cons env s a rest hq]; simp [hq]

theorem getNext_maxq (env : Env) (s : AudioQueue) :
    ((getNextAudio env s).2.1).max_queue_size = s.max_queue_size := by
  cases hq : s.queue with
  | nil => rw [getNext_nil env s hq]; exact stash_maxq s
  | cons a rest => rw [getNext_cons env s a rest hq]; exact stash_maxq s

theorem getNext_maxp (env : Env) (s : AudioQueue) :
    ((getNextAudio env s).2.1).max_previous_queue_size =
      s.max_previous_queue_size := by
  cases hq : s.queue with
  | nil => rw [getNext_nil env s hq]; exact stash_maxp s
  | cons a rest => rw [getNext_cons env s a rest hq]; exact stash_maxp s

theorem getNext_prevLen (env : Env) (s : AudioQueue)
    (h : s.previous_queue.length ≤ s.max_previous_queue_size + 1) :
    ((getNextAudio env s).2.1).previous_queue.length ≤
      s.max_previous_queue_size + 1 := by
  cases hq : s.queue with
  | nil => rw [getNext_nil env s hq]; exact stash_len s h
  | cons a rest => rw [getNext_cons env s a rest hq]; exact stash_len s h

theorem getNext_prev_of_curNone (env : Env) (s : AudioQueue)
    (h : s.current_audio = none) :
    ((getNextAudio env s).2.1).previous_queue = s.previous_queue := by
  cases hq : s.queue with
  | nil => rw [getNext_nil env s hq]; rw [stash_none s h]
  | cons a rest => rw [getNext_cons env s a rest hq]; rw [stash_none s h]

/-! ### Characterization lemmas for get_previous_audio -/

theorem pushCur_none (s : AudioQueue) (h : s.current_audio = none) :
    pushCurrentLeft s = s := by
  unfold pushCurrentLeft; rw [h]

theorem pushCur_some (s : AudioQueue) (c : Audio) (h : s.current_audio = some c) :
    pushCurrentLeft s = {s with queue := c :: s.queue} := by
  unfold pushCurrentLeft; rw [h]

theorem getPrev_nil (env : Env) (s : AudioQueue) (h : s.previous_queue = []) :
    getPreviousAudio env s = (none, s, []) := by
  unfold getPreviousAudio; rw [h]; rfl

theorem getPrev_concat (env : Env) (s : AudioQueue) (p : List Audio) (b : Audio)
    (h : s.previous_queue = p ++ [b]) :
    getPreviousAudio env s =
      (some (promote env b).1,
       {pushCurrentLeft s with previous_queue := p,
                               current_audio := some (promote env b).1},
       (promote env b).2 ++ [Eff.evNewAudio (promote env b).1]) := by
  unfold getPreviousAudio
  rw [h, List.getLast?_concat, List.dropLast_concat]
  rfl

theorem getPrev_concat_curNone (env : Env) (s : AudioQueue) (p : List Audio)
    (b : Audio) (h : s.previous_queue = p ++ [b])
    (hc : s.current_audio = none) :
    getPreviousAudio env s =
      (some (promote env b).1,
       {s with previous_queue := p, current_audio := some (promote env b).1},
       (promote env b).2 ++ [Eff.evNewAudio (promote env b).1]) := by
  rw [getPrev_concat env s p b h, pushCur_none s hc]

theorem getPrev_concat_curSome (env : Env) (s : AudioQueue) (p : List Audio)
    (b : Audio) (c : Audio) (h : s.previous_queue = p ++ [b])
    (hc : s.current_audio = some c) :
    getPreviousAudio env s =
      (some (promote env b).1,
       {s with queue := c :: s.queue, previous_queue := p,
               current_audio := some (promote env b).1},
       (promote env b).2 ++ [Eff.evNewAudio (promote env b).1]) := by
  rw [getPrev_concat env s p b h, pushCur_some s c hc]

/-! ### Characterization lemmas for _add_to_queue, append and append_left -/

theorem enqueue_current (s : AudioQueue) (a : Audio) (left : Bool) :
    (enqueue s a left).current_audio = s.current_audio := by
  unfold enqueue; split <;> rfl

theorem enqueue_prev (s : AudioQueue) (a : Audio) (left : Bool) :
    (enqueue s a left).previous_queue = s.previous_queue := by
  unfold enqueue; split <;> rfl

theorem enqueue_maxq (s : AudioQueue) (a : Audio) (left : Bool) :
    (enqueue s a left).max_queue_size = s.max_queue_size := by
  unfold enqueue; split <;> rfl

theorem enqueue_maxp (s : AudioQueue) (a : Audio) (left : Bool) :
    (enqueue s a left).max_previous_queue_size = s.max_previous_queue_size := by
  unfold enqueue; split <;> rfl

theorem enqueue_len (s : AudioQueue) (a : Audio) (left : Bool) :
    (enqueue s a left).queue.length = s.queue.length + 1 := by
  unfold enqueue; split <;> simp

theorem enqueue_true (s : AudioQueue) (a : Audio) :
    enqueue s a true = {s with queue := a :: s.queue} := rfl

theorem addToQueue_none (env : Env) (s : AudioQueue) (left : Bool) :
    addToQueue env s none left = (s, []) := rfl

theorem addToQueue_reject (env : Env) (s : AudioQueue) (a : Audio) (left : Bool)
    (h : ¬ s.queue.length < s.max_queue_size) :
    addToQueue env s (some a) left = (s, []) := by
  simp only [addToQueue, if_neg h]

theorem addToQueue_cur_some (env : Env) (s : AudioQueue) (a : Audio) (left : Bool)
    (c : Audio) (hlen : s.queue.length < s.max_queue_size)
    (hc : s.current_audio = some c) :
    addToQueue env s (some a) left = (enqueue s a left, [Eff.evQueueUpdate]) := by
  simp only [addToQueue, if_pos hlen, enqueue_current, hc]

theorem addToQueue_cur_none (env : Env) (s : AudioQueue) (a : Audio) (left : Bool)
    (hlen : s.queue.length < s.max_queue_size)
    (hc : s.current_audio = none) :
    addToQueue env s (some a) left =
      (getNextAudio env (enqueue s a left)).2 := by
  simp only [addToQueue, if_pos hlen, enqueue_current, hc]

theorem addToQueue_prev (env : Env) (s : AudioQueue) (audio : Option Audio)
    (left : Bool) :
    ((addToQueue env s audio left).1).previous_queue = s.previous_queue := by
  cases audio with
  | none => rw [addToQueue_none]
  | some a =>
      by_cases hlen : s.queue.length < s.max_queue_size
      · cases hc : s.current_audio with
        | none =>
            rw [addToQueue_cur_none env s a left hlen hc]
            rw [getNext_prev_of_curNone env _ (by rw [enqueue_current, hc])]
            exact enqueue_prev s a left
        | some c =>
            rw [addToQueue_cur_some env s a left c hlen hc]
            exact enqueue_prev s a left
      · rw [addToQueue_reject env s a left hlen]

theorem addToQueue_maxq (env : Env) (s : AudioQueue) (audio : Option Audio)
    (left : Bool) :
    ((addToQueue env s audio left).1).max_queue_size = s.max_queue_size := by
  cases audio with
  | none => rw [addToQueue_none]
  | some a =>
      by_cases hlen : s.queue.length < s.max_queue_size
      · cases hc : s.current_audio with
        | none =>
            rw [addToQueue_cur_none env s a left hlen hc, getNext_maxq]
            exact enqueue_maxq s a left
        | some c =>
            rw [addToQueue_cur_some env s a left c hlen hc]
            exact enqueue_maxq s a left
      · rw [addToQueue_reject env s a left hlen]

theorem addToQueue_maxp (env : Env) (s : AudioQueue) (audio : Option Audio)
    (left : Bool) :
    ((addToQueue env s audio left).1).max_previous_queue_size =
      s.max_previous_queue_size := by
  cases audio with
  | none => rw [addToQueue_none]
  | some a =>
      by_cases hlen : s.queue.length < s.max_queue_size
      · cases hc : s.current_audio with
        | none =>
            rw [addToQueue_cur_none env s a left hlen hc, getNext_maxp]
            exact enqueue_maxp s a left
        | some c =>
            rw [addToQueue_cur_some env s a left c hlen hc]
            exact enqueue_maxp s a left
      · rw [addToQueue_reject env s a left hlen]

theorem addToQueue_queueLen_le (env : Env) (s : AudioQueue) (audio : Option Audio)
    (left : Bool) :
    ((addToQueue env s audio left).1).queue.length ≤ s.queue.length + 1 := by
  cases audio with
  | none => rw [addToQueue_none]; exact Nat.le_succ _
  | some a =>
      by_cases hlen : s.queue.length < s.max_queue_size
      · cases hc : s.current_audio with
        | none =>
            rw [addToQueue_cur_none env s a left hlen hc]
            calc ((getNextAudio env (enqueue s a left)).2.1).queue.length
                ≤ (enqueue s a left).queue.length := getNext_queueLen_le env _
              _ = s.queue.length + 1 := enqueue_len s a left
        | some c =>
            rw [addToQueue_cur_some env s a left c hlen hc]
            rw [enqueue_len]
      · rw [addToQueue_reject env s a left hlen]; exact Nat.le_succ _

theorem addToQueue_bound (env : Env) (s : AudioQueue) (audio : Option Audio)
    (left : Bool) (h : s.queue.length ≤ s.max_queue_size) :
    ((addToQueue env s audio left).1).queue.length ≤ s.max_queue_size := by
  cases audio with
  | none => rw [addToQueue_none]; exact h
  | some a =>
      by_cases hlen : s.queue.length < s.max_queue_size
      · cases hc : s.current_audio with
        | none =>
            rw [addToQueue_cur_none env s a left hlen hc]
            calc ((getNextAudio env (enqueue s a left)).2.1).queue.length
                ≤ (enqueue s a left).queue.length := getNext_queueLen_le env _
              _ = s.queue.length + 1 := enqueue_len s a left
              _ ≤ s.max_queue_size := hlen
        | some c =>
            rw [addToQueue_cur_some env s a left c hlen hc]
            rw [enqueue_len]
            exact hlen
      · rw [addToQueue_reject env s a left hlen]; exact h

theorem addToQueue_current_of_some (env : Env) (s : AudioQueue) (a : Audio)
    (left : Bool) (c : Audio) (hc : s.current_audio = some c) :
    ((addToQueue env s (some a) left).1).current_audio = some c := by
  by_cases hlen : s.queue.length < s.max_queue_size
  · rw [addToQueue_cur_some env s a left c hlen hc]
    rw [enqueue_current, hc]
  · rw [addToQueue_reject env s a left hlen]
    exact hc

/-! ### Characterization lemmas for remove_current_audio and restart_queue -/

theorem removeCur_none (env : Env) (s : AudioQueue) (h : s.current_audio = none) :
    removeCurrentAudio env s = (none, s, []) := by
  unfold removeCurrentAudio; rw [h]

theorem removeCur_some (env : Env) (s : AudioQueue) (c : Audio)
    (h : s.current_audio = some c) :
    removeCurrentAudio env s =
      (some c.title, (getNextAudio env {s with current_audio := none}).2) := by
  unfold removeCurrentAudio; rw [h]

theorem restart_fst (env : Env) (s : AudioQueue) :
    (restartQueue env s).1 =
      (getNextAudio env
        {(addToQueue env s s.current_audio true).1 with
          queue := ((addToQueue env s s.current_audio true).1).previous_queue ++
            ((addToQueue env s s.current_audio true).1).queue,
          previous_queue := []}).2.1 := rfl

theorem restart_none (env : Env) (s : AudioQueue) (h : s.current_audio = none) :
    restartQueue env s =
      ((getNextAudio env {s with queue := s.previous_queue ++ s.queue,
                                 previous_queue := []}).2.1,
       (getNextAudio env {s with queue := s.previous_queue ++ s.queue,
                                 previous_queue := []}).2.2) := by
  unfold restartQueue
  rw [h, addToQueue_none]
  simp [h]

theorem restart_some (env : Env) (s : AudioQueue) (c : Audio)
    (hc : s.current_audio = some c)
    (hlen : s.queue.length < s.max_queue_size) :
    restartQueue env s =
      ((getNextAudio env {s with queue := s.previous_queue ++ (c :: s.queue),
                                 previous_queue := []}).2.1,
       Eff.evQueueUpdate ::
         (getNextAudio env {s with queue := s.previous_queue ++ (c :: s.queue),
                                   previous_queue := []}).2.2) := by
  unfold restartQueue
  rw [hc, addToQueue_cur_some env s c true c hlen hc, enqueue_true]
  simp [hc]

theorem pushCur_prev (s : AudioQueue) :
    (pushCurrentLeft s).previous_queue = s.previous_queue := by
  unfold pushCurrentLeft
  cases s.current_audio <;> rfl

theorem pushCur_maxq (s : AudioQueue) :
    (pushCurrentLeft s).max_queue_size = s.max_queue_size := by
  unfold pushCurrentLeft
  cases s.current_audio <;> rfl

theorem pushCur_maxp (s : AudioQueue) :
    (pushCurrentLeft s).max_previous_queue_size = s.max_previous_queue_size := by
  unfold pushCurrentLeft
  cases s.current_audio <;> rfl

theorem pushCur_queueLen (s : AudioQueue) :
    (pushCurrentLeft s).queue.length ≤ s.queue.length + 1 := by
  unfold pushCurrentLeft
  cases s.current_audio
  · exact Nat.le_succ _
  · simp

/-! ### The history bound: every operation keeps the history length at or
below max_previous_queue_size + 1 -/

theorem step_prevBound (env : Env) (s : AudioQueue) (op : Op)
    (h : s.previous_queue.length ≤ s.max_previous_queue_size + 1) :
    ((step env s op).1).previous_queue.length ≤
      ((step env s op).1).max_previous_queue_size + 1 := by
  cases op with
  | append a =>
      simp only [step]
      rw [addToQueue_prev, addToQueue_maxp]
      exact h
  | appendLeft a =>
      simp only [step]
      rw [addToQueue_prev, addToQueue_maxp]
      exact h
  | getNext =>
      simp only [step]
      rw [getNext_maxp]
      exact getNext_prevLen env s h
  | getPrevious =>
      simp only [step]
      rcases List.eq_nil_or_concat s.previous_queue with hp | ⟨p, b, hp⟩
      · rw [getPrev_nil env s hp]
        exact h
      · rw [List.concat_eq_append] at hp
        rw [getPrev_concat env s p b hp]
        simp only [pushCur_maxp]
        rw [hp] at h
        simp only [List.length_append, List.length_cons, List.length_nil] at h
        omega
  | restart =>
      simp only [step]
      rw [restart_fst, getNext_maxp]
      exact le_trans (getNext_prevLen env _ (by simp)) (by simp [addToQueue_maxp])
  | removeCurrent =>
      simp only [step]
      cases hc : s.current_audio with
      | none =>
          rw [removeCur_none env s hc]
          exact h
      | some c =>
          rw [removeCur_some env s c hc]
          rw [getNext_maxp]
          exact getNext_prevLen env _ h
  | reset =>
      simp only [step, resetQueue]
      simp

theorem execOps_prevBound (env : Env) (ops : List Op) :
    ∀ s : AudioQueue, s.previous_queue.length ≤ s.max_previous_queue_size + 1 →
      (execOps env s ops).previous_queue.length ≤
        (execOps env s ops).max_previous_queue_size + 1 := by
  induction ops with
  | nil => intro s h; exact h
  | cons op rest ih =>
      intro s h
      simp only [execOps]
      exact ih _ (step_prevBound env s op h)

/-! ### Claims C2 and C3 -/

/-- Claim C2, counterexample: the history length does exceed
max_previous_queue_size.  With max_previous_queue_size = 0, the reachable
state sC2 (append two tracks, advance once) has a history of length 1,
because _add_to_previous_queue only evicts when the length is already
strictly greater than the bound. -/
theorem C2_counterexample :
    Reachable env0 sC2 ∧ sC2.max_previous_queue_size = 0 ∧
      sC2.previous_queue.length = 1 :=
  ⟨⟨10, 0, [Op.append (some (mkAudio 0)), Op.append (some (mkAudio 1)),
            Op.getNext], rfl⟩, rfl, rfl⟩

/-- Claim C2, amended: on every reachable state the history length never
exceeds max_previous_queue_size + 1 (it can reach and then permanently
stay at max_previous_queue_size + 1, one more than the claim's bound), and
whenever _add_to_previous_queue evicts, the evicted element is the head of
the history, i.e. the oldest entry (strict FIFO eviction). -/
theorem C2_amended_history_bound (env : Env) (s : AudioQueue)
    (h : Reachable env s) :
    s.previous_queue.length ≤ s.max_previous_queue_size + 1 ∧
    ∀ a : Audio, s.previous_queue.length > s.max_previous_queue_size →
      (addToPreviousQueue s a).previous_queue =
        s.previous_queue.tail ++ [a] := by
  constructor
  · obtain ⟨mq, mp, ops, rfl⟩ := h
    exact execOps_prevBound env ops _ (by simp [AudioQueue.init])
  · intro a hgt
    exact addPrev_evict s a hgt

/-- Witness for C2_amended_history_bound at the reachable state sC2. -/
theorem C2_amended_history_bound_witness :
    sC2.previous_queue.length ≤ sC2.max_previous_queue_size + 1 :=
  (C2_amended_history_bound env0 sC2
    ⟨10, 0, [Op.append (some (mkAudio 0)), Op.append (some (mkAudio 1)),
             Op.getNext], rfl⟩).1

/-- Claim C3, counterexample: the forward queue length does exceed
max_queue_size.  With max_queue_size = 1, the reachable state sC3 (fill
the queue, then get_previous_audio, which pushes the current track onto
the queue head with no capacity check) has a forward queue of length 2. -/
theorem C3_counterexample :
    Reachable env0 sC3 ∧ sC3.max_queue_size = 1 ∧ sC3.queue.length = 2 :=
  ⟨⟨1, 10, [Op.append (some (mkAudio 0)), Op.append (some (mkAudio 1)),
            Op.getNext, Op.append (some (mkAudio 2)), Op.getPrevious],
    rfl⟩, rfl, rfl⟩

/-- Claim C3, amended: append, append_left, get_next_audio,
remove_current_audio and reset_queue do preserve the bound
queue length ≤ max_queue_size, but get_previous_audio does not enforce it
(it grows the forward queue by at most one, so it can push the length to
max_queue_size + 1), and restart_queue can grow the forward queue up to
the history length plus one beyond its prior length. -/
theorem C3_amended_queue_bounds (env : Env) (s : AudioQueue)
    (h : s.queue.length ≤ s.max_queue_size) :
    (∀ (audio : Option Audio) (left : Bool),
        ((addToQueue env s audio left).1).queue.length ≤ s.max_queue_size)
  ∧ ((getNextAudio env s).2.1).queue.length ≤ s.max_queue_size
  ∧ ((removeCurrentAudio env s).2.1).queue.length ≤ s.max_queue_size
  ∧ ((resetQueue s).1).queue.length ≤ s.max_queue_size
  ∧ ((getPreviousAudio env s).2.1).queue.length ≤ s.queue.length + 1
  ∧ ((restartQueue env s).1).queue.length ≤
      s.previous_queue.length + s.queue.length + 1 := by
  refine ⟨fun audio left => addToQueue_bound env s audio left h,
          le_trans (getNext_queueLen_le env s) h, ?_, Nat.zero_le _, ?_, ?_⟩
  · cases hc : s.current_audio with
    | none =>
        rw [removeCur_none env s hc]
        exact h
    | some c =>
        rw [removeCur_some env s c hc]
        exact le_trans (getNext_queueLen_le env _) h
  · rcases List.eq_nil_or_concat s.previous_queue with hp | ⟨p, b, hp⟩
    · rw [getPrev_nil env s hp]
      exact Nat.le_succ _
    · rw [List.concat_eq_append] at hp
      rw [getPrev_concat env s p b hp]
      exact pushCur_queueLen s
  · rw [restart_fst]
    refine le_trans (getNext_queueLen_le env _) ?_
    simp only [List.length_append]
    have h1 := addToQueue_prev env s s.current_audio true
    have h2 := addToQueue_queueLen_le env s s.current_audio true
    rw [h1]
    omega

/-- Witness for C3_amended_queue_bounds on a fresh queue. -/
theorem C3_amended_queue_bounds_witness :
    ((getNextAudio env0 (AudioQueue.init 4 4)).2.1).queue.length ≤ 4 :=
  (C3_amended_queue_bounds env0 (AudioQueue.init 4 4) (by simp [AudioQueue.init])).2.1

/-! ### Claims C4, C8, C9 and C10 -/

/-- Claim C4, confirmed: assigning a non-empty Audio to the current slot
first checks is_stale; when stale it calls refresh and proceeds with the
promotion whether or not the refresh succeeded; it then calls set_end_time
and then publishes new_audio carrying the same instance (the aid is
preserved).  Assigning an empty value publishes no_audio with no staleness
check, no refresh and no end-time update. -/
theorem C4_current_setter (env : Env) (s : AudioQueue) (a : Audio) :
    (a.is_stale env = true →
      setCurrentAudio env s (some a) =
        ({s with
            current_audio := some (((a.refresh env).1).set_end_time env 0)},
         [Eff.checkedStale a.aid true,
          Eff.refreshCalled a.aid (a.refresh env).2,
          Eff.endTimeSet a.aid,
          Eff.evNewAudio (((a.refresh env).1).set_end_time env 0)]))
  ∧ (a.is_stale env = false →
      setCurrentAudio env s (some a) =
        ({s with current_audio := some (a.set_end_time env 0)},
         [Eff.checkedStale a.aid false, Eff.endTimeSet a.aid,
          Eff.evNewAudio (a.set_end_time env 0)]))
  ∧ ((((a.refresh env).1).set_end_time env 0).aid = a.aid)
  ∧ (setCurrentAudio env s none =
      ({s with current_audio := none}, [Eff.evNoAudio])) := by
  refine ⟨fun hs => ?_, fun hs => ?_, ?_, rfl⟩
  · simp [setCurrentAudio, promote, hs]
  · simp [setCurrentAudio, promote, hs]
  · rw [set_end_time_aid, refresh_aid]

/-- Witness for C4_current_setter: a stale, unrefreshable track is still
promoted and its new_audio event is published. -/
theorem C4_current_setter_witness :
    (mkAudio 0).is_stale envStale = true ∧
    setCurrentAudio envStale (AudioQueue.init 5 5) (some (mkAudio 0)) =
      ({AudioQueue.init 5 5 with
          current_audio :=
            some ((((mkAudio 0).refresh envStale).1).set_end_time envStale 0)},
       [Eff.checkedStale (mkAudio 0).aid true,
        Eff.refreshCalled (mkAudio 0).aid ((mkAudio 0).refresh envStale).2,
        Eff.endTimeSet (mkAudio 0).aid,
        Eff.evNewAudio ((((mkAudio 0).refresh envStale).1).set_end_time envStale 0)]) :=
  ⟨by decide,
   (C4_current_setter envStale (AudioQueue.init 5 5) (mkAudio 0)).1 (by decide)⟩

/-- Claim C8, confirmed: when the resolver returns a result, refresh
replaces audio_url, webpage_url, title, length and thumbnail with the
resolver's values (everything else, in particular end_time and the
identity, is untouched) and returns true; when the resolver returns no
result, refresh leaves the Audio unchanged and returns false.  The model
function is total, so no exception is raised in either case. -/
theorem C8_refresh_contract (env : Env) (a : Audio) :
    (∀ e : Entry, env.getAudio a.webpage_url = some e →
      a.refresh env =
        ({a with audio_url := e.audio_url, webpage_url := e.webpage_url,
                 title := e.title, length := e.length,
                 thumbnail := e.thumbnail}, true))
  ∧ (env.getAudio a.webpage_url = none → a.refresh env = (a, false)) := by
  constructor
  · intro e he
    unfold Audio.refresh
    rw [he]
  · intro he
    unfold Audio.refresh
    rw [he]

/-- Witness for C8_refresh_contract: one successful and one failed
refresh. -/
theorem C8_refresh_contract_witness :
    (mkAudio 3).refresh envResolve =
      ({mkAudio 3 with audio_url := e0.audio_url,
                       webpage_url := e0.webpage_url, title := e0.title,
                       length := e0.length, thumbnail := e0.thumbnail},
       true) ∧
    (mkAudio 3).refresh env0 = (mkAudio 3, false) :=
  ⟨(C8_refresh_contract envResolve (mkAudio 3)).1 e0 rfl,
   (C8_refresh_contract env0 (mkAudio 3)).2 rfl⟩

/-- Claim C9, confirmed: with an empty history, get_previous_audio returns
an empty result, leaves the state (forward queue, history, current slot)
unchanged and publishes no event; the model function is total, so no
exception is raised. -/
theorem C9_previous_empty_noop (env : Env) (s : AudioQueue)
    (h : s.previous_queue = []) :
    getPreviousAudio env s = (none, s, []) :=
  getPrev_nil env s h

/-- Witness for C9_previous_empty_noop on a fresh queue. -/
theorem C9_previous_empty_noop_witness :
    getPreviousAudio env0 (AudioQueue.init 5 5) =
      (none, AudioQueue.init 5 5, []) :=
  C9_previous_empty_noop env0 (AudioQueue.init 5 5) rfl

/-- Claim C10, confirmed: a non-Audio argument (modelled by none, which is
what restart_queue passes when the current slot is empty) makes append and
append_left leave the state unchanged with no event and no exception; and
restart_queue with an empty current slot enqueues nothing in its
append_left phase: it just moves the history in front of the forward
queue and advances, so no empty value is ever enqueued. -/
theorem C10_non_audio_rejected (env : Env) (s : AudioQueue) :
    (∀ left : Bool, addToQueue env s none left = (s, []))
  ∧ (s.current_audio = none →
      restartQueue env s =
        ((getNextAudio env {s with queue := s.previous_queue ++ s.queue,
                                   previous_queue := []}).2.1,
         (getNextAudio env {s with queue := s.previous_queue ++ s.queue,
                                   previous_queue := []}).2.2)) := by
  constructor
  · intro left
    exact addToQueue_none env s left
  · intro hc
    exact restart_none env s hc

/-- Witness for C10_non_audio_rejected on a fresh queue. -/
theorem C10_non_audio_rejected_witness :
    addToQueue env0 (AudioQueue.init 5 5) none false =
      (AudioQueue.init 5 5, []) :=
  (C10_non_audio_rejected env0 (AudioQueue.init 5 5)).1 false

/-! ### Claim C5: get_next_audio then get_previous_audio -/

/-- Claim C5, counterexample: on the reachable state sC5 (empty forward
queue, empty current slot, one track in the history) the pair
get_next_audio; get_previous_audio does not restore the current slot: it
was empty before the pair and holds a track afterwards, because
get_next_audio on an empty queue does not touch the forward queue while
get_previous_audio then promotes the most recent history entry. -/
theorem C5_counterexample :
    Reachable env0 sC5 ∧ sC5.current_audio = none ∧
      ((getPreviousAudio env0 (getNextAudio env0 sC5).2.1).2.1).current_audio ≠
        none :=
  ⟨⟨10, 10, [Op.append (some (mkAudio 0)), Op.getNext], rfl⟩, rfl, by decide⟩

/-- Claim C5, amended: whenever a track is current before the pair, calling
get_next_audio and then immediately get_previous_audio restores that track
to the current slot (same instance: same aid) and restores the forward
queue's ordering (same instances in the same order).  When the current
slot is empty before the pair and the history is non-empty, the pair
instead promotes the most recent history entry. -/
theorem C5_amended_roundtrip (env : Env) (s : AudioQueue) (c : Audio)
    (hc : s.current_audio = some c) :
    (((getPreviousAudio env (getNextAudio env s).2.1).2.1).current_audio.map
        Audio.aid = some c.aid)
  ∧ (((getPreviousAudio env (getNextAudio env s).2.1).2.1).queue.map Audio.aid
        = s.queue.map Audio.aid) := by
  obtain ⟨p, hp⟩ := addPrev_prev_concat s c
  cases hq : s.queue with
  | nil =>
      simp only [getNext_nil env s hq]
      have hprev : ({stashCurrent s with
          current_audio := none} : AudioQueue).previous_queue = p ++ [c] := by
        show (stashCurrent s).previous_queue = p ++ [c]
        rw [stash_some s c hc]
        exact hp
      simp only [getPrev_concat_curNone env _ p c hprev rfl]
      constructor
      · simp [promote_aid]
      · simp [stash_queue, hq]
  | cons a rest =>
      simp only [getNext_cons env s a rest hq]
      have hprev : ({stashCurrent s with
          queue := rest, current_audio := some (promote env a).1} :
          AudioQueue).previous_queue = p ++ [c] := by
        show (stashCurrent s).previous_queue = p ++ [c]
        rw [stash_some s c hc]
        exact hp
      simp only [getPrev_concat_curSome env _ p c ((promote env a).1) hprev rfl]
      constructor
      · simp [promote_aid]
      · simp [promote_aid]

/-- Witness for C5_amended_roundtrip on the reachable state sC6, whose
current slot holds the track with aid 1. -/
theorem C5_amended_roundtrip_witness :
    ((getPreviousAudio env0 (getNextAudio env0 sC6).2.1).2.1).current_audio.map
        Audio.aid = some ((promote env0 (mkAudio 1)).1).aid ∧
    ((getPreviousAudio env0 (getNextAudio env0 sC6).2.1).2.1).queue.map
        Audio.aid = sC6.queue.map Audio.aid :=
  C5_amended_roundtrip env0 sC6 ((promote env0 (mkAudio 1)).1) (by decide)

/-! ### Claim C6: restart_queue followed by draining -/

/-- Claim C6, counterexample: on the reachable state sC6 the forward queue
is at capacity (max_queue_size = 1), so restart_queue's internal
append_left of the current track (aid 1) is silently rejected; the
restarted playback sequence is [0, 2] instead of the claimed
history ++ current ++ queue sequence [0, 1, 2]. -/
theorem C6_counterexample :
    Reachable env0 sC6 ∧
    sC6.previous_queue.map Audio.aid = [0] ∧
    sC6.current_audio.map Audio.aid = some 1 ∧
    sC6.queue.map Audio.aid = [2] ∧
    (((restartQueue env0 sC6).1).current_audio.toList ++
        drain env0 (restartQueue env0 sC6).1
          ((restartQueue env0 sC6).1).queue.length).map Audio.aid = [0, 2] :=
  ⟨⟨1, 10, [Op.append (some (mkAudio 0)), Op.append (some (mkAudio 1)),
            Op.getNext, Op.append (some (mkAudio 2))], rfl⟩,
   rfl, rfl, rfl, by decide⟩

theorem drain_map_aid (env : Env) :
    ∀ (n : Nat) (s : AudioQueue), s.queue.length = n →
      (drain env s n).map Audio.aid = s.queue.map Audio.aid := by
  intro n
  induction n with
  | zero =>
      intro s h
      rw [List.length_eq_zero] at h
      simp [drain, h]
  | succ n ih =>
      intro s h
      cases hq : s.queue with
      | nil => rw [hq] at h; simp at h
      | cons a rest =>
          have hlen : ({stashCurrent s with
              queue := rest, current_audio := some (promote env a).1} :
              AudioQueue).queue.length = n := by
            have h2 : (a :: rest).length = n + 1 := hq ▸ h
            simp only [List.length_cons] at h2
            show rest.length = n
            omega
          simp only [drain, getNext_cons env s a rest hq]
          simp [promote_aid, ih _ hlen, hq]

/-- Claim C6, amended: when a track c is current and the forward queue is
strictly below max_queue_size, restart_queue followed by draining via
repeated get_next_audio plays the history h1..hk, then c, then the
remaining queue q1..qn, in that original relative order, oldest history
first (compared by instance identity).  When the forward queue is at
capacity, the internal append_left of c is instead rejected and c is
omitted from the replayed sequence. -/
theorem C6_amended_restart_drain (env : Env) (s : AudioQueue) (c : Audio)
    (hc : s.current_audio = some c)
    (hlen : s.queue.length < s.max_queue_size) :
    (((restartQueue env s).1).current_audio.toList ++
        drain env (restartQueue env s).1
          ((restartQueue env s).1).queue.length).map Audio.aid
      = (s.previous_queue ++ c :: s.queue).map Audio.aid := by
  have hr := restart_some env s c hc hlen
  cases hp : s.previous_queue with
  | nil =>
      rw [hp] at hr
      simp only [List.nil_append] at hr
      simp only [hr]
      simp only [getNext_cons env
        ({s with queue := c :: s.queue, previous_queue := []}) c s.queue rfl]
      simp [promote_aid, drain_map_aid]
  | cons h1 hs =>
      rw [hp] at hr
      simp only [List.cons_append] at hr
      simp only [hr]
      simp only [getNext_cons env
        ({s with queue := h1 :: (hs ++ c :: s.queue), previous_queue := []})
        h1 (hs ++ c :: s.queue) rfl]
      simp [promote_aid, drain_map_aid]

/-- Witness for C6_amended_restart_drain: on the reachable state sC2
(current track aid 1, history [aid 0], empty forward queue, bound 10) the
restarted playback sequence is exactly history, then current. -/
theorem C6_amended_restart_drain_witness :
    (((restartQueue env0 sC2).1).current_audio.toList ++
        drain env0 (restartQueue env0 sC2).1
          ((restartQueue env0 sC2).1).queue.length).map Audio.aid
      = (sC2.previous_queue ++ (promote env0 (mkAudio 1)).1 :: sC2.queue).map
          Audio.aid :=
  C6_amended_restart_drain env0 sC2 ((promote env0 (mkAudio 1)).1)
    (by decide) (by decide)

/-! ### Claim C7: append sequences and the capacity policy -/

/-- Claim C7, counterexample: on a fresh queue (empty forward queue, empty
current slot), a single accepted append leaves the forward queue length at
0, not 1: _add_to_queue immediately promotes the item out of the queue
because nothing is current.  So the forward-queue length does not equal
the number of accepted appends. -/
theorem C7_counterexample :
    sC7.queue.length = 0 ∧ sC7.current_audio.map Audio.aid = some 0 :=
  ⟨rfl, rfl⟩

theorem execAppends_len (env : Env) :
    ∀ (l : List (Bool × Audio)) (s : AudioQueue) (c : Audio),
      s.current_audio = some c → s.queue.length ≤ s.max_queue_size →
      (execAppends env s l).queue.length =
        min (s.queue.length + l.length) s.max_queue_size := by
  intro l
  induction l with
  | nil =>
      intro s c hc h
      simp only [execAppends, List.length_nil, Nat.add_zero]
      omega
  | cons pa rest ih =>
      intro s c hc h
      obtain ⟨left, a⟩ := pa
      by_cases hlen : s.queue.length < s.max_queue_size
      · simp only [execAppends, addToQueue_cur_some env s a left c hlen hc]
        have hcur : (enqueue s a left).current_audio = some c := by
          rw [enqueue_current]; exact hc
        have hih := ih (enqueue s a left) c hcur
          (by rw [enqueue_len, enqueue_maxq]; omega)
        rw [hih, enqueue_len, enqueue_maxq]
        simp only [List.length_cons]
        omega
      · simp only [execAppends, addToQueue_reject env s a left hlen]
        have hih := ih s c hc h
        rw [hih]
        simp only [List.length_cons]
        omega

/-- Claim C7, amended: starting from an empty forward queue while the
current slot is occupied, after any sequence of append/append_left calls
the forward-queue length equals the number of accepted appends, namely
min(number of appends, max_queue_size); once the length reaches
max_queue_size every further append or append_left is a no-op (state
unchanged, no event, no exception) and a fresh rejected item is present
nowhere in the queue.  With an empty current slot the claim fails: the
first accepted append is immediately promoted out of the queue, so the
length lags the accepted count by one. -/
theorem C7_amended_capacity (env : Env) (s : AudioQueue) (c : Audio)
    (hc : s.current_audio = some c) (hq : s.queue = []) :
    (∀ l : List (Bool × Audio),
        (execAppends env s l).queue.length = min l.length s.max_queue_size)
  ∧ (∀ (t : AudioQueue) (a : Audio) (left : Bool),
        t.max_queue_size ≤ t.queue.length →
          addToQueue env t (some a) left = (t, []) ∧
          (a.aid ∉ t.queue.map Audio.aid →
            a.aid ∉ ((addToQueue env t (some a) left).1).queue.map Audio.aid)) := by
  constructor
  · intro l
    have h0 : s.queue.length ≤ s.max_queue_size := by
      rw [hq]; exact Nat.zero_le _
    have heq := execAppends_len env l s c hc h0
    rw [hq] at heq
    simpa using heq
  · intro t a left hcap
    have hrej := addToQueue_reject env t a left (by omega)
    refine ⟨hrej, fun hnot => ?_⟩
    rw [hrej]
    exact hnot

/-- Witness for C7_amended_capacity: two appends on a queue with
max_queue_size 3 and an occupied current slot give length 2. -/
theorem C7_amended_capacity_witness :
    (execAppends env0
        ({AudioQueue.init 3 3 with current_audio := some (mkAudio 9)})
        [(false, mkAudio 1), (true, mkAudio 2)]).queue.length = min 2 3 :=
  (C7_amended_capacity env0
    ({AudioQueue.init 3 3 with current_audio := some (mkAudio 9)})
    (mkAudio 9) rfl rfl).1 [(false, mkAudio 1), (true, mkAudio 2)]

/-! ### Claim C1: no Audio instance is held by two containers -/

theorem coe_append_ms (l1 l2 : List Nat) :
    ((l1 ++ l2 : List Nat) : Multiset Nat) =
      (l1 : Multiset Nat) + (l2 : Multiset Nat) :=
  (Multiset.coe_add l1 l2).symm

theorem coe_cons_ms (a : Nat) (l : List Nat) :
    ((a :: l : List Nat) : Multiset Nat) =
      ({a} : Multiset Nat) + (l : Multiset Nat) := by
  rw [Multiset.singleton_add]
  rfl

theorem addPrev_aids_le (s : AudioQueue) (c : Audio) :
    (((addToPreviousQueue s c).previous_queue.map Audio.aid :
        List Nat) : Multiset Nat) ≤
      ((s.previous_queue.map Audio.aid : List Nat) : Multiset Nat) +
        {c.aid} := by
  unfold addToPreviousQueue
  split
  · simp only [List.map_append, List.map_cons, List.map_nil, coe_append_ms,
      Multiset.coe_singleton]
    exact add_le_add_right
      (Multiset.coe_le.mpr
        (((List.tail_sublist s.previous_queue).map Audio.aid).subperm)) _
  · simp only [List.map_append, List.map_cons, List.map_nil, coe_append_ms,
      Multiset.coe_singleton]
    exact le_refl _

theorem getNext_aids_le (env : Env) (s : AudioQueue) :
    ((allAids ((getNextAudio env s).2.1) : List Nat) : Multiset Nat) ≤
      ((allAids s : List Nat) : Multiset Nat) := by
  cases hq : s.queue with
  | nil =>
      simp only [getNext_nil env s hq]
      cases hcur : s.current_audio with
      | none =>
          rw [stash_none s hcur]
          simp [allAids, allAudios, hq, hcur]
      | some c =>
          rw [stash_some s c hcur]
          have h1 := addPrev_aids_le s c
          simp only [allAids, allAudios, hq, hcur, addPrev_queue,
            Option.toList_some, Option.toList_none, List.map_append,
            List.map_cons, List.map_nil, List.cons_append, List.nil_append,
            List.append_nil, coe_append_ms, coe_cons_ms,
            Multiset.coe_singleton, Multiset.coe_nil, zero_add, add_zero]
          exact h1
  | cons a rest =>
      simp only [getNext_cons env s a rest hq]
      cases hcur : s.current_audio with
      | none =>
          rw [stash_none s hcur]
          simp only [allAids, allAudios, hq, hcur, promote_aid,
            Option.toList_some, Option.toList_none, List.map_append,
            List.map_cons, List.map_nil, List.cons_append, List.nil_append,
            List.append_nil, coe_append_ms, coe_cons_ms,
            Multiset.coe_singleton, Multiset.coe_nil, zero_add, add_zero]
          exact le_of_eq (by ac_rfl)
      | some c =>
          rw [stash_some s c hcur]
          have h1 := addPrev_aids_le s c
          simp only [allAids, allAudios, hq, hcur, addPrev_queue,
            promote_aid, Option.toList_some, Option.toList_none,
            List.map_append, List.map_cons, List.map_nil, List.cons_append,
            List.nil_append, List.append_nil, coe_append_ms, coe_cons_ms,
            Multiset.coe_singleton, Multiset.coe_nil, zero_add, add_zero]
          calc ((rest.map Audio.aid : List Nat) : Multiset Nat) +
                ↑((addToPreviousQueue s c).previous_queue.map Audio.aid) +
                {a.aid}
              ≤ ((rest.map Audio.aid : List Nat) : Multiset Nat) +
                  (↑(s.previous_queue.map Audio.aid) + {c.aid}) + {a.aid} :=
                add_le_add_right (add_le_add_left h1 _) _
            _ = {a.aid} + (↑(rest.map Audio.aid) +
                  ↑(s.previous_queue.map Audio.aid) + {c.aid}) := by ac_rfl

theorem getPrev_aids_le (env : Env) (s : AudioQueue) :
    ((allAids ((getPreviousAudio env s).2.1) : List Nat) : Multiset Nat) ≤
      ((allAids s : List Nat) : Multiset Nat) := by
  rcases List.eq_nil_or_concat s.previous_queue with hp | ⟨p, b, hp⟩
  · rw [getPrev_nil env s hp]
  · rw [List.concat_eq_append] at hp
    cases hcur : s.current_audio with
    | none =>
        simp only [getPrev_concat_curNone env s p b hp hcur]
        simp only [allAids, allAudios, hp, hcur, promote_aid,
          Option.toList_some, Option.toList_none, List.map_append,
          List.map_cons, List.map_nil, List.cons_append, List.nil_append,
          List.append_nil, coe_append_ms, coe_cons_ms,
          Multiset.coe_singleton, Multiset.coe_nil, zero_add, add_zero]
        exact le_of_eq (by ac_rfl)
    | some c =>
        simp only [getPrev_concat_curSome env s p b c hp hcur]
        simp only [allAids, allAudios, hp, hcur, promote_aid,
          Option.toList_some, Option.toList_none, List.map_append,
          List.map_cons, List.map_nil, List.cons_append, List.nil_append,
          List.append_nil, coe_append_ms, coe_cons_ms,
          Multiset.coe_singleton, Multiset.coe_nil, zero_add, add_zero]
        exact le_of_eq (by ac_rfl)

theorem enqueue_aids_ms (s : AudioQueue) (a : Audio) (left : Bool) :
    ((allAids (enqueue s a left) : List Nat) : Multiset Nat) =
      ({a.aid} : Multiset Nat) + ((allAids s : List Nat) : Multiset Nat) := by
  unfold enqueue
  split
  · simp only [allAids, allAudios, List.map_append, List.map_cons,
      List.map_nil, List.cons_append, List.nil_append, List.append_nil,
      coe_append_ms, coe_cons_ms, Multiset.coe_singleton, Multiset.coe_nil,
      zero_add, add_zero]
  · simp only [allAids, allAudios, List.map_append, List.map_cons,
      List.map_nil, List.cons_append, List.nil_append, List.append_nil,
      coe_append_ms, coe_cons_ms, Multiset.coe_singleton, Multiset.coe_nil,
      zero_add, add_zero]
    ac_rfl

theorem nodup_of_aids_le {l1 l2 : List Nat}
    (h : (l1 : Multiset Nat) ≤ (l2 : Multiset Nat)) (h2 : l2.Nodup) :
    l1.Nodup :=
  Multiset.coe_nodup.mp (Multiset.nodup_of_le h (Multiset.coe_nodup.mpr h2))

theorem getNext_nodup (env : Env) (s : AudioQueue)
    (h : (allAids s).Nodup) : (allAids ((getNextAudio env s).2.1)).Nodup :=
  nodup_of_aids_le (getNext_aids_le env s) h

theorem getPrev_nodup (env : Env) (s : AudioQueue)
    (h : (allAids s).Nodup) :
    (allAids ((getPreviousAudio env s).2.1)).Nodup :=
  nodup_of_aids_le (getPrev_aids_le env s) h

theorem addToQueue_nodup (env : Env) (s : AudioQueue) (audio : Option Audio)
    (left : Bool) (h : (allAids s).Nodup)
    (hf : ∀ a : Audio, audio = some a → a.aid ∉ allAids s) :
    (allAids ((addToQueue env s audio left).1)).Nodup := by
  cases audio with
  | none =>
      rw [addToQueue_none]
      exact h
  | some a =>
      by_cases hlen : s.queue.length < s.max_queue_size
      · have hnd : (allAids (enqueue s a left)).Nodup := by
          have hms := enqueue_aids_ms s a left
          have hcons : (({a.aid} : Multiset Nat) +
              ((allAids s : List Nat) : Multiset Nat)).Nodup := by
            rw [Multiset.singleton_add]
            exact Multiset.nodup_cons.mpr
              ⟨by simpa [Multiset.mem_coe] using hf a rfl,
               Multiset.coe_nodup.mpr h⟩
          rw [← hms] at hcons
          exact Multiset.coe_nodup.mp hcons
        cases hc : s.current_audio with
        | some c =>
            rw [addToQueue_cur_some env s a left c hlen hc]
            exact hnd
        | none =>
            rw [addToQueue_cur_none env s a left hlen hc]
            exact getNext_nodup env _ hnd
      · rw [addToQueue_reject env s a left hlen]
        exact h

theorem removeCur_nodup (env : Env) (s : AudioQueue)
    (h : (allAids s).Nodup) :
    (allAids ((removeCurrentAudio env s).2.1)).Nodup := by
  cases hc : s.current_audio with
  | none =>
      rw [removeCur_none env s hc]
      exact h
  | some c =>
      rw [removeCur_some env s c hc]
      refine getNext_nodup env _ (nodup_of_aids_le ?_ h)
      simp only [allAids, allAudios, hc, Option.toList_some,
        Option.toList_none, List.map_append, List.map_cons, List.map_nil,
        List.cons_append, List.nil_append, List.append_nil, coe_append_ms,
        coe_cons_ms, Multiset.coe_singleton, Multiset.coe_nil, zero_add,
        add_zero]
      exact Multiset.le_add_right _ _

theorem step_nodup (env : Env) (s : AudioQueue) (op : Op)
    (h : (allAids s).Nodup) (hnr : nonRestart op) (hf : freshFor s op) :
    (allAids ((step env s op).1)).Nodup := by
  cases op with
  | append a =>
      simp only [step]
      refine addToQueue_nodup env s a false h ?_
      intro a' ha'
      cases a with
      | none => cases ha'
      | some a0 =>
          injection ha' with h'
          subst h'
          exact hf
  | appendLeft a =>
      simp only [step]
      refine addToQueue_nodup env s a true h ?_
      intro a' ha'
      cases a with
      | none => cases ha'
      | some a0 =>
          injection ha' with h'
          subst h'
          exact hf
  | getNext =>
      simp only [step]
      exact getNext_nodup env s h
  | getPrevious =>
      simp only [step]
      exact getPrev_nodup env s h
  | restart => exact hnr.elim
  | removeCurrent =>
      simp only [step]
      exact removeCur_nodup env s h
  | reset =>
      simp only [step, resetQueue]
      simp [allAids, allAudios]

/-- Claim C1, counterexample: the state sC1, reached by appending one track
(aid 0) and calling restart_queue on a queue with room to spare, holds the
instance with aid 0 both in the current slot and in the history:
restart_queue re-enqueues the current track at the queue head and its
final get_next_audio then also pushes the still-current same instance into
the history. -/
theorem C1_counterexample :
    Reachable env0 sC1 ∧ sC1.previous_queue.map Audio.aid = [0] ∧
      sC1.current_audio.map Audio.aid = some 0 ∧ ¬ (allAids sC1).Nodup :=
  ⟨⟨10, 10, [Op.append (some (mkAudio 0)), Op.restart], rfl⟩,
   rfl, rfl, by decide⟩

/-- Claim C1, amended: under append, append_left, get_next_audio,
get_previous_audio, remove_current_audio and reset_queue — every operation
except restart_queue — and with every appended Audio a fresh instance, the
object identities held by the forward queue, the history and the current
slot stay pairwise distinct (their concatenation has no duplicate), so
each Audio instance appears in at most one container, at most once.
restart_queue breaks the invariant: it can leave the previously current
instance in two containers at once. -/
theorem C1_amended_no_aliasing (env : Env) (s : AudioQueue)
    (h : ReachedFresh env s) : (allAids s).Nodup := by
  induction h with
  | init mq mp => simp [allAids, allAudios, AudioQueue.init]
  | stepOp s1 op h1 hnr hf ih => exact step_nodup env s1 op ih hnr hf

/-- Witness for C1_amended_no_aliasing after one fresh append. -/
theorem C1_amended_no_aliasing_witness :
    (allAids (step env0 (AudioQueue.init 3 3)
        (Op.append (some (mkAudio 0)))).1).Nodup :=
  C1_amended_no_aliasing env0 _
    (ReachedFresh.stepOp _ _ (ReachedFresh.init 3 3) trivial
      (by show (mkAudio 0).aid ∉ allAids (AudioQueue.init 3 3); decide))

end DiscordBot
